import Mathlib

/-!
Verification of the Reshaper transformer toolkit (src/src/Resource.js).

The JavaScript value universe relevant to the library is embedded as the
inductive type `Val`: `undefined`, `null`, booleans, numbers (restricted to
the integer fragment; the library's only arithmetic is pagination math),
strings, arrays, and plain objects (ordered association lists of string
keys, matching JS own-property insertion order).
-/

inductive Val where
  | undefined
  | null
  | boolV (b : Bool)
  | numV (n : Int)
  | strV (s : String)
  | arr (elems : List Val)
  | obj (fields : List (String × Val))
deriving Repr

/-- JS truthiness: `undefined`, `null`, `false`, `0`, `""` are falsy
(`NaN` is not representable in the integer fragment). -/
def truthy : Val → Bool
  | .undefined => false
  | .null => false
  | .boolV b => b
  | .numV n => n != 0
  | .strV s => s != ""
  | .arr _ => true
  | .obj _ => true

/-- The strict comparison `v === undefined`. -/
def isUndef : Val → Bool
  | .undefined => true
  | _ => false

/-- The test `v === null || v === undefined` (nullish values). -/
def isNullish : Val → Bool
  | .undefined => true
  | .null => true
  | _ => false

/-- `Array.isArray`. -/
def isArray : Val → Bool
  | .arr _ => true
  | _ => false

/-- `typeof v === 'object'` (true for objects, arrays and `null`). -/
def typeofObject : Val → Bool
  | .null => true
  | .arr _ => true
  | .obj _ => true
  | _ => false

def getElems : Val → List Val
  | .arr xs => xs
  | _ => []

def lookupKey {α : Type} : List (String × α) → String → Option α
  | [], _ => none
  | kv :: rest, k => if kv.1 = k then some kv.2 else lookupKey rest k

/-- Index keys of a JS array or string, as decimal-string keys
(`Object.entries(['a']) = [['0','a']]`). -/
def indexEntries {α : Type} (vs : List α) : List (String × α) :=
  ((List.range vs.length).zip vs).map (fun p => (toString p.1, p.2))

/-- `Object.entries` (own enumerable string-keyed properties, in order).
On strings it yields the index-keyed characters; on other primitives it is
empty. -/
def entriesOf : Val → List (String × Val)
  | .obj fs => fs
  | .arr xs => indexEntries xs
  | .strV s => indexEntries (s.data.map (fun c => .strV (String.singleton c)))
  | _ => []

/-- Property read `v[k]`. Missing properties read as `undefined`; arrays and
strings expose `length`. (In JS a property read on `null`/`undefined` throws;
that case is outside every claim and reads as `undefined` here.) -/
def getProp (v : Val) (k : String) : Val :=
  match v with
  | .obj fs => (lookupKey fs k).getD .undefined
  | .arr xs => if k = "length" then .numV xs.length else (lookupKey (indexEntries xs) k).getD .undefined
  | .strV s => if k = "length" then .numV s.length
               else (lookupKey (entriesOf (.strV s)) k).getD .undefined
  | _ => .undefined

/-- Own-property presence (`Object.hasOwn`), distinguishing a key stored with
value `undefined` from a key that is not there at all. -/
def hasKey (v : Val) (k : String) : Bool :=
  (lookupKey (entriesOf v) k).isSome

/-- Short-circuit `a || b` on values. -/
def jsOr (a b : Val) : Val := if truthy a then a else b

/-- Nullish coalescing `a ?? b`. -/
def jsNullish (a b : Val) : Val := if isNullish a then b else a

/-- Updating insert used to model `Object.fromEntries` / property assignment:
an existing key keeps its position and receives the new value, a new key is
appended. -/
def setKey {α : Type} : List (String × α) → String → α → List (String × α)
  | [], k, v => [(k, v)]
  | kv :: rest, k, v => if kv.1 = k then (k, v) :: rest else kv :: setKey rest k v

/-- `Object.fromEntries`: later entries for the same key overwrite earlier
ones, first occurrence fixes the position. -/
def fromEntries {α : Type} (l : List (String × α)) : List (String × α) :=
  l.foldl (fun acc kv => setKey acc kv.1 kv.2) []

/-- JS string coercion of a value when it is used as a property key
(`String(v)`); array elements that are nullish print as empty strings inside
the comma join. -/
def valToKeyString : Val → String
  | .undefined => "undefined"
  | .null => "null"
  | .boolV b => if b then "true" else "false"
  | .numV n => toString n
  | .strV s => s
  | .obj _ => "[object Object]"
  | .arr xs =>
      String.intercalate "," (xs.attach.map (fun p =>
        if isNullish p.1 then "" else valToKeyString p.1))
decreasing_by
  have := List.sizeOf_lt_of_mem p.2
  simp only [Val.arr.sizeOf_spec]
  omega

/-- `Math.ceil(t / p)` for integer operands and a nonzero divisor
(`ceil(x) = -floor(-x)`; `Int.fdiv` is floor division). -/
def intCeilDiv (t p : Int) : Int := -((-t).fdiv p)

/-- JS numeric coercion into the integer fragment: `null` is 0, booleans are
0/1, integer-looking strings parse, anything NaN-producing is `none`.
(Fractional values are outside the modelled fragment; no theorem relies on
them.) -/
def toNumZ : Val → Option Int
  | .numV n => some n
  | .null => some 0
  | .boolV b => some (if b then 1 else 0)
  | .strV s => if s.trim = "" then some 0 else s.trim.toInt?
  | _ => none

/-- `Math.ceil(total / perPage) || 1` (src/Resource.js line 218).  A NaN
division (for example an `undefined` total) gives `NaN || 1 = 1`.  A zero
divisor with nonzero dividend gives an infinity, which the integer fragment
cannot represent; that branch returns `undefined` as a stand-in and no
theorem relies on it. -/
def jsLastPage (total perPage : Val) : Val :=
  match toNumZ total, toNumZ perPage with
  | some t, some p =>
      if p = 0 then (if t = 0 then .numV 1 else .undefined)
      else (if intCeilDiv t p = 0 then .numV 1 else .numV (intCeilDiv t p))
  | _, _ => .numV 1

/-- Destructuring default `const { k = d } = options`: the default applies
exactly when the read is `undefined`. -/
def optionDefault (options : Val) (k : String) (d : Val) : Val :=
  if isUndef (getProp options k) then d else getProp options k

/-- The rest pattern `...transformOptions` of
`const { page = 1, perPage = 15, ...transformOptions } = options`. -/
def restOptions (options : Val) : Val :=
  .obj (match options with
        | .obj fs => fs.filter (fun kv => kv.1 != "page" && kv.1 != "perPage")
        | _ => [])

/-- `result.results || result.data || result.rows || result`
(src/Resource.js line 209). -/
def selectedResults (result : Val) : Val :=
  jsOr (getProp result "results")
    (jsOr (getProp result "data") (jsOr (getProp result "rows") result))

/-- `result.total ?? result.count ?? results.length`
(src/Resource.js line 210). -/
def selectedTotal (result : Val) : Val :=
  jsNullish (getProp result "total")
    (jsNullish (getProp result "count") (getProp (selectedResults result) "length"))

/-! ## The Resource operations (src/src/Resource.js)

The class's static methods dispatch through `this`; a concrete transformer
supplies `transform`, so `collection`, `make` and `paginate` are embedded as
functions parameterised by the operation that `this` would provide. -/

/-- `Resource.transform` (lines 26-31): the base contract always throws; the
message interpolates `this.name`, the concrete class name. -/
def Resource.transform (name : String) (resource options : Val) : Except String Val :=
  .error (name ++ ".transform() must be implemented. Define a static transform method in your resource class.")

/-- `Resource.collection` (lines 42-45), with `this.transform` passed as
`transform`. -/
def Resource.collection (transform : Val → Val → Val) (resources options : Val) : Val :=
  if !truthy resources || !isArray resources then .arr []
  else .arr ((getElems resources).map (fun resource => transform resource options))

/-- `Resource.make` (lines 56-59), with `this.transform` passed as
`transform`. -/
def Resource.make (transform : Val → Val → Val) (resource options : Val) : Val :=
  if !truthy resource then .null else transform resource options

/-- `Resource.whenLoaded` (lines 104-108): the optional `transformer`
parameter defaults to `null` (`none` here); a supplied function is truthy. -/
def Resource.whenLoaded (resource : Val) (relation : String) (transformer : Option (Val → Val)) : Val :=
  if isUndef (getProp resource relation) then .undefined
  else match transformer with
       | some f => f (getProp resource relation)
       | none => getProp resource relation

/-- `Resource.clean` (lines 137-142): non-truthy and non-`'object'` inputs are
returned as they are; otherwise `Object.fromEntries` over the entries whose
value is not `undefined`. -/
def Resource.clean (obj : Val) : Val :=
  if !truthy obj || !typeofObject obj then obj
  else .obj (fromEntries ((entriesOf obj).filter (fun kv => !isUndef kv.2)))

/-- `Resource.wrap` (lines 175-181). -/
def Resource.wrap (data meta : Val) : Val :=
  if truthy meta && decide (0 < (entriesOf meta).length) then
    .obj [("data", data), ("meta", meta)]
  else .obj [("data", data)]

/-- The key computation `keyMap[key] || key` of `Resource.rename`
(line 311), coerced to a property key as the object literal does. -/
def renameKey (keyMap : Val) (k : String) : String :=
  if truthy (getProp keyMap k) then valToKeyString (getProp keyMap k) else k

/-- `Resource.rename` (lines 307-315): a falsy `obj` or `keyMap` yields the
spread copy `{...obj}`; otherwise each entry key becomes
`keyMap[key] || key`, rebuilt with `Object.fromEntries`. -/
def Resource.rename (obj keyMap : Val) : Val :=
  if !truthy obj || !truthy keyMap then .obj (fromEntries (entriesOf obj))
  else .obj (fromEntries ((entriesOf obj).map (fun kv => (renameKey keyMap kv.1, kv.2))))

/-- `Resource.paginate` (lines 201-221), with `this.collection` passed as
`collection`. -/
def Resource.paginate (collection : Val → Val → Val) (result options : Val) : Val :=
  let page := optionDefault options "page" (.numV 1)
  let perPage := optionDefault options "perPage" (.numV 15)
  let results := selectedResults result
  let total := selectedTotal result
  .obj [("data", collection (if isArray results then results else .arr []) (restOptions options)),
        ("meta", .obj [("current_page", page),
                       ("per_page", perPage),
                       ("total", total),
                       ("last_page", jsLastPage total perPage)])]

/-- The operation surface shared by a base-contract extension and a
`define`-built transformer. -/
structure DefinedResource where
  transform : Val → Val → Val
  collection : Val → Val → Val
  make : Val → Val → Val
  paginate : Val → Val → Val
  wrap : Val → Val → Val

/-- The `collection` closure built inside `Resource.define`
(lines 244-247). -/
def defineCollection (transformFn : Val → Val → Val) : Val → Val → Val :=
  fun data options =>
    if !truthy data || !isArray data then .arr []
    else .arr ((getElems data).map (fun item => transformFn item options))

/-- `Resource.define` (lines 238-260): its `paginate` runs
`Resource.paginate.call({ collection: resource.collection }, ...)`, so the
shared pagination algorithm dispatches to the defined `collection`. -/
def Resource.define (transformFn : Val → Val → Val) : DefinedResource where
  transform := fun data options => if !truthy data then .null else transformFn data options
  collection := defineCollection transformFn
  make := fun data options => if !truthy data then .null else transformFn data options
  paginate := fun result options => Resource.paginate (defineCollection transformFn) result options
  wrap := Resource.wrap

/-- A base-contract extension whose static `transform` is `fn`: the inherited
`collection`, `make` and `paginate` dispatch through `this`, which resolves
to `fn` / the inherited `collection`. -/
def extendTransformer (fn : Val → Val → Val) : DefinedResource where
  transform := fn
  collection := Resource.collection fn
  make := Resource.make fn
  paginate := fun result options => Resource.paginate (Resource.collection fn) result options
  wrap := Resource.wrap

example : truthy (.strV "") = false := by decide
example : getProp (.arr [.numV 7]) "length" = .numV 1 := rfl
example : getProp (.arr [.numV 7]) "0" = .numV 7 := rfl
example : hasKey (.obj [("a", .undefined)]) "a" = true := rfl
example : Val.numV 3 ≠ Val.null := by simp
example : Val.numV 3 ≠ Val.numV 4 := by simp
example : Resource.clean (.obj [("a", .numV 1), ("b", .undefined), ("c", .null)]) =
    .obj [("a", .numV 1), ("c", .null)] := rfl
example : Resource.clean (.arr [.strV "x"]) = .obj [("0", .strV "x")] := rfl
example : Resource.rename (.obj [("old", .strV "x")]) (.obj [("old", .strV "new")]) =
    .obj [("new", .strV "x")] := by
  simp [Resource.rename, renameKey, entriesOf, fromEntries, setKey, getProp, lookupKey,
    truthy, valToKeyString, typeofObject]
example :
    Resource.paginate (Resource.collection (fun v _ => v))
      (.obj [("results", .arr []), ("total", .numV 0)]) (.obj []) =
    .obj [("data", .arr []),
          ("meta", .obj [("current_page", .numV 1), ("per_page", .numV 15),
                         ("total", .numV 0), ("last_page", .numV 1)])] := rfl

/-! ## Claim theorems -/

/-- Claim C1: for every transform function `fn`, every result container and
every options map, paginating with the factory-built transformer
`Resource.define fn` and paginating with a base-contract extension whose
`transform` equals `fn` produce identical output (the same data array and the
same meta record). -/
theorem define_paginate_eq_extend_paginate (fn : Val → Val → Val) (result options : Val) :
    (Resource.define fn).paginate result options =
      (extendTransformer fn).paginate result options := rfl

/-- Claim C8: invoking the base contract's `transform` without an override
raises, for every entity and options input, an error whose message starts
with the concrete type name and instructs the implementer to define a static
`transform` method. -/
theorem transform_not_implemented (name : String) (resource options : Val) :
    Resource.transform name resource options =
      .error (name ++ ".transform() must be implemented. Define a static transform method in your resource class.") :=
  rfl

/-- Claim C6: for every implemented transform `t`, `collection` on a
non-array (including `null`/`undefined`) is the empty array, and on an array
it maps `t` over the elements, preserving length and index correspondence
(elements whose transform yields `null` are kept by `List.map`). -/
theorem collection_maps_in_order (t : Val → Val → Val) (opts : Val) :
    (∀ v : Val, isArray v = false → Resource.collection t v opts = .arr []) ∧
    (∀ xs : List Val, Resource.collection t (.arr xs) opts = .arr (xs.map (fun x => t x opts))) ∧
    (∀ xs : List Val, (getElems (Resource.collection t (.arr xs) opts)).length = xs.length) ∧
    (∀ (xs : List Val) (i : Nat),
      (getElems (Resource.collection t (.arr xs) opts))[i]? =
        Option.map (fun x => t x opts) xs[i]?) := by
  refine ⟨?_, ?_, ?_, ?_⟩
  · intro v hv; cases v <;> simp_all [Resource.collection, isArray, truthy]
  · intro xs; simp [Resource.collection, isArray, truthy, getElems]
  · intro xs; simp [Resource.collection, isArray, truthy, getElems]
  · intro xs i; simp [Resource.collection, isArray, truthy, getElems]

/-- Witness for C6: a `null` input yields `[]`; an array input is mapped
elementwise, keeping elements whose transform yields `null`. -/
theorem collection_maps_in_order_witness :
    Resource.collection (fun _ _ => Val.null) Val.null (.obj []) = .arr [] ∧
    Resource.collection (fun _ _ => Val.null) (.arr [.numV 1, .numV 2]) (.obj []) =
      .arr [.null, .null] :=
  ⟨(collection_maps_in_order (fun _ _ => Val.null) (.obj [])).1 .null rfl,
   (collection_maps_in_order (fun _ _ => Val.null) (.obj [])).2.1 [.numV 1, .numV 2]⟩

/-- Claim C10: a `define`-built transformer's `transform` and `make` return
`null` on every falsy input, for every supplied function (hence without
depending on, or invoking, the supplied function), while its `collection`
applies the supplied function to every element of an array, falsy elements
included. -/
theorem define_falsy_transform_collection (fn : Val → Val → Val) (opts : Val) :
    (∀ d : Val, truthy d = false →
      (Resource.define fn).transform d opts = .null ∧
      (Resource.define fn).make d opts = .null) ∧
    (∀ xs : List Val,
      (Resource.define fn).collection (.arr xs) opts = .arr (xs.map (fun x => fn x opts))) := by
  constructor
  · intro d hd
    constructor <;> simp [Resource.define, hd]
  · intro xs
    simp [Resource.define, defineCollection, truthy, isArray, getElems]

/-! Rebuilding an association list with `Object.fromEntries` is the identity
when its keys are pairwise distinct (every real JS object satisfies this). -/

theorem setKey_of_not_mem {α : Type} (l : List (String × α)) (k : String) (v : α)
    (h : k ∉ l.map Prod.fst) : setKey l k v = l ++ [(k, v)] := by
  induction l with
  | nil => rfl
  | cons kv rest ih =>
      simp only [List.map_cons, List.mem_cons] at h
      push_neg at h
      simp [setKey, Ne.symm h.1, ih h.2]

theorem fromEntries_aux {α : Type} (l acc : List (String × α))
    (hd : (acc.map Prod.fst ++ l.map Prod.fst).Nodup) :
    l.foldl (fun acc kv => setKey acc kv.1 kv.2) acc = acc ++ l := by
  induction l generalizing acc with
  | nil => simp
  | cons kv rest ih =>
      rw [List.foldl_cons]
      rw [List.map_cons] at hd
      rcases List.nodup_append.mp hd with ⟨h1, h2, hdisj⟩
      have hk : kv.1 ∉ acc.map Prod.fst := fun hmem => (hdisj hmem) (by simp)
      rw [setKey_of_not_mem _ _ _ hk]
      rw [ih (acc ++ [(kv.1, kv.2)]) (by simpa [List.append_assoc] using hd)]
      simp

theorem fromEntries_self {α : Type} (l : List (String × α))
    (h : (l.map Prod.fst).Nodup) : fromEntries l = l := by
  simpa [fromEntries] using fromEntries_aux l [] (by simpa using h)

theorem define_falsy_transform_collection_witness :
    ((Resource.define (fun d _ => .arr [d])).transform .null (.obj []) = .null ∧
     (Resource.define (fun d _ => .arr [d])).make .null (.obj []) = .null) ∧
    ((Resource.define (fun d _ => .arr [d])).transform .undefined (.obj []) = .null ∧
     (Resource.define (fun d _ => .arr [d])).make .undefined (.obj []) = .null) ∧
    ((Resource.define (fun d _ => .arr [d])).transform (.numV 0) (.obj []) = .null ∧
     (Resource.define (fun d _ => .arr [d])).transform (.strV "") (.obj []) = .null ∧
     (Resource.define (fun d _ => .arr [d])).transform (.boolV false) (.obj []) = .null) ∧
    (Resource.define (fun d _ => .arr [d])).collection (.arr [.numV 0]) (.obj []) =
      .arr [.arr [.numV 0]] :=
  ⟨(define_falsy_transform_collection (fun d _ => .arr [d]) (.obj [])).1 .null rfl,
   ⟨((define_falsy_transform_collection (fun d _ => .arr [d]) (.obj [])).1 .undefined rfl).1,
    ((define_falsy_transform_collection (fun d _ => .arr [d]) (.obj [])).1 .undefined rfl).2⟩,
   ⟨((define_falsy_transform_collection (fun d _ => .arr [d]) (.obj [])).1 (.numV 0) rfl).1,
    ((define_falsy_transform_collection (fun d _ => .arr [d]) (.obj [])).1 (.strV "") rfl).1,
    ((define_falsy_transform_collection (fun d _ => .arr [d]) (.obj [])).1 (.boolV false) rfl).1⟩,
   (define_falsy_transform_collection (fun d _ => .arr [d]) (.obj [])).2 [.numV 0]⟩

/-- Claim C4 counterexample: the claim says every non-record input — sequences
included — is returned unchanged, but `typeof [] === 'object'`, so `clean` on
an array rebuilds it as an index-keyed plain record. -/
theorem clean_array_counterexample :
    Resource.clean (.arr [.strV "x"]) = .obj [("0", .strV "x")] ∧
    (Val.obj [("0", .strV "x")] ≠ .arr [.strV "x"]) :=
  ⟨rfl, fun h => Val.noConfusion h⟩

/-- Claim C4 (amended): `clean` on a record keeps exactly the entries whose
value is not `undefined`, in order, values (explicit `null` included) carried
verbatim; a falsy or non-`'object'` input (scalars, strings, `null`,
`undefined`) is returned unchanged; an array is treated as its index-keyed
record, not returned unchanged. -/
theorem clean_amended (v : Val) (fs : List (String × Val)) (xs : List Val) :
    (truthy v = false ∨ typeofObject v = false → Resource.clean v = v) ∧
    ((fs.map Prod.fst).Nodup →
      Resource.clean (.obj fs) = .obj (fs.filter (fun kv => !isUndef kv.2))) ∧
    Resource.clean (.arr xs) = Resource.clean (.obj (indexEntries xs)) := by
  refine ⟨?_, ?_, ?_⟩
  · intro h
    unfold Resource.clean
    rcases h with h | h <;> simp [h]
  · intro h
    unfold Resource.clean
    rw [if_neg (by simp [show truthy (Val.obj fs) = true from rfl,
      show typeofObject (Val.obj fs) = true from rfl])]
    show Val.obj (fromEntries (fs.filter (fun kv => !isUndef kv.2))) = _
    exact congrArg Val.obj (fromEntries_self _
      ((List.Sublist.map Prod.fst (List.filter_sublist fs)).nodup h))
  · rfl

/-- Witness for C4 (amended): a scalar passes through; a record keeps exactly
its non-`undefined` entries, explicit `null` included, in order. -/
theorem clean_amended_witness :
    Resource.clean (.numV 5) = .numV 5 ∧
    Resource.clean (.obj [("a", .numV 1), ("b", .undefined), ("c", .null)]) =
      .obj [("a", .numV 1), ("c", .null)] := by
  constructor
  · exact (clean_amended (.numV 5) [] []).1 (Or.inr rfl)
  · exact ((clean_amended (.numV 5) [("a", .numV 1), ("b", .undefined), ("c", .null)] []).2.1
      (by decide)).trans rfl

/-- Claim C5 counterexample: `"old"` is present in the key map, but its value
`""` is falsy, so `keyMap[key] || key` keeps the old key instead of renaming
to `""` as the claim requires. -/
theorem rename_falsy_value_counterexample :
    hasKey (.obj [("old", .strV "")]) "old" = true ∧
    Resource.rename (.obj [("old", .numV 1)]) (.obj [("old", .strV "")]) =
      .obj [("old", .numV 1)] ∧
    (Val.obj [("old", .numV 1)] ≠ .obj [("", .numV 1)]) := by
  refine ⟨rfl, rfl, ?_⟩
  simp

/-- Claim C5 (amended): for a record with distinct keys and a truthy key map,
`rename` replaces each key `k` by the property-key form of `keyMap[k]`
whenever that value is truthy and keeps `k` otherwise (a falsy mapping such
as `""`, `0` or `null` does not rename), carrying values unchanged in the
record's order (stated under distinctness of the resulting keys, which is
what `Object.fromEntries` needs to keep all entries in place); when the key
map is `null` the result is a shallow copy. -/
theorem rename_amended (fs : List (String × Val)) (keyMap : Val) :
    (truthy keyMap = true →
      ((fs.map (fun kv => renameKey keyMap kv.1)).Nodup →
        Resource.rename (.obj fs) keyMap =
          .obj (fs.map (fun kv => (renameKey keyMap kv.1, kv.2))))) ∧
    ((fs.map Prod.fst).Nodup → Resource.rename (.obj fs) .null = .obj fs) := by
  constructor
  · intro hk hnd
    unfold Resource.rename
    rw [if_neg (by simp [show truthy (Val.obj fs) = true from rfl, hk])]
    show Val.obj (fromEntries (fs.map fun kv => (renameKey keyMap kv.1, kv.2))) = _
    exact congrArg Val.obj (fromEntries_self _
      (by simpa [List.map_map, Function.comp_def] using hnd))
  · intro h
    unfold Resource.rename
    rw [if_pos (by simp [show truthy Val.null = false from rfl])]
    exact congrArg Val.obj (fromEntries_self _ h)

/-- Witness for C5 (amended): a mapped key is renamed, an unmapped key passes
through, and a `null` key map copies the record. -/
theorem rename_amended_witness :
    Resource.rename (.obj [("old", .strV "v"), ("keep", .numV 2)])
        (.obj [("old", .strV "nw")]) =
      .obj [("nw", .strV "v"), ("keep", .numV 2)] ∧
    Resource.rename (.obj [("a", .numV 1)]) .null = .obj [("a", .numV 1)] := by
  constructor
  · have h := (rename_amended [("old", .strV "v"), ("keep", .numV 2)]
        (.obj [("old", .strV "nw")])).1 rfl
      (by simp [renameKey, getProp, lookupKey, truthy, valToKeyString])
    rw [h]
    simp [renameKey, getProp, lookupKey, truthy, valToKeyString]
  · exact (rename_amended [("a", .numV 1)] .null).2 (by decide)

/-- Claim C7 counterexample: a relation property that is present but stored
as `undefined` reads as `=== undefined`, so `whenLoaded` returns the absent
marker without calling the transformer, although the claim requires
`transformer(relationValue)` for every present property. -/
theorem whenLoaded_undefined_property_counterexample :
    hasKey (.obj [("posts", .undefined)]) "posts" = true ∧
    Resource.whenLoaded (.obj [("posts", .undefined)]) "posts" (some (fun _ => .numV 7)) =
      .undefined ∧
    (Val.undefined ≠ Val.numV 7) :=
  ⟨rfl, rfl, fun h => Val.noConfusion h⟩

/-- Claim C7 (amended): `whenLoaded` returns the absent marker exactly when
the relation lookup is `undefined` (property never set, or set to
`undefined`); when the lookup is not `undefined` — explicit `null` included —
it returns `transformer(relationValue)` if a transformer was supplied and the
relation value unchanged otherwise. -/
theorem whenLoaded_amended (resource : Val) (relation : String)
    (transformer : Option (Val → Val)) :
    (isUndef (getProp resource relation) = true →
      Resource.whenLoaded resource relation transformer = .undefined) ∧
    (isUndef (getProp resource relation) = false →
      Resource.whenLoaded resource relation transformer =
        (match transformer with
         | some f => f (getProp resource relation)
         | none => getProp resource relation)) := by
  constructor <;> intro h <;> simp [Resource.whenLoaded, h]

/-- Witness for C7 (amended): an explicit `null` relation is passed to the
transformer, and a never-set relation is absent. -/
theorem whenLoaded_amended_witness :
    Resource.whenLoaded (.obj [("p", .null)]) "p" (some (fun v => .arr [v])) =
      .arr [.null] ∧
    Resource.whenLoaded (.obj []) "q" none = .undefined :=
  ⟨(whenLoaded_amended (.obj [("p", .null)]) "p" (some (fun v => .arr [v]))).2 rfl,
   (whenLoaded_amended (.obj []) "q" none).1 rfl⟩

/-- Claim C2 counterexample: in `{results: null, data: [1]}` the `results`
field is present, so the claim selects it and (null not being a sequence)
demands an empty data array; the code's `||` chain skips the falsy `results`
and maps over `data`.  Likewise in `{results: [], total: null, count: 5}` the
`total` field is present, so the claim demands `meta.total = null`, while the
code's `??` chain skips the null `total` and reports `count`. -/
theorem paginate_present_falsy_counterexample :
    (hasKey (.obj [("results", .null), ("data", .arr [.numV 1])]) "results" = true ∧
     getProp (Resource.paginate (Resource.collection (fun v _ => v))
        (.obj [("results", .null), ("data", .arr [.numV 1])]) (.obj [])) "data" =
       .arr [.numV 1] ∧
     (Val.arr [.numV 1] ≠ .arr [])) ∧
    (hasKey (.obj [("results", .arr []), ("total", .null), ("count", .numV 5)]) "total" = true ∧
     getProp (getProp (Resource.paginate (Resource.collection (fun v _ => v))
        (.obj [("results", .arr []), ("total", .null), ("count", .numV 5)]) (.obj []))
        "meta") "total" = .numV 5 ∧
     (Val.numV 5 ≠ .null)) :=
  ⟨⟨rfl, rfl, by simp⟩, ⟨rfl, rfl, fun h => Val.noConfusion h⟩⟩

/-- `this.collection` applied to `Array.isArray(results) ? results : []` is
always an elementwise map (an empty one for a non-array). -/
theorem collection_ite_arr (t : Val → Val → Val) (S opts : Val) :
    Resource.collection t (if isArray S then S else .arr []) opts =
      .arr ((getElems (if isArray S then S else .arr [])).map (fun x => t x opts)) := by
  cases S <;> rfl

/-- Claim C2 (amended): `paginate` selects as item sequence the first
*truthy* value among the container's `results`, `data` and `rows` fields,
falling back to the container itself; it selects as `total` the first
*non-nullish* value among the `total` and `count` fields, else the selected
sequence's `length` property; and a selected sequence that is not an array
contributes an empty data array (the remaining options being forwarded to the
per-item transform). -/
theorem paginate_selection_amended (t : Val → Val → Val) (result options : Val) :
    ∃ seq : Val,
      (truthy (getProp result "results") = true → seq = getProp result "results") ∧
      (truthy (getProp result "results") = false →
        truthy (getProp result "data") = true → seq = getProp result "data") ∧
      (truthy (getProp result "results") = false →
        truthy (getProp result "data") = false →
        truthy (getProp result "rows") = true → seq = getProp result "rows") ∧
      (truthy (getProp result "results") = false →
        truthy (getProp result "data") = false →
        truthy (getProp result "rows") = false → seq = result) ∧
      (isNullish (getProp result "total") = false →
        selectedTotal result = getProp result "total") ∧
      (isNullish (getProp result "total") = true →
        isNullish (getProp result "count") = false →
        selectedTotal result = getProp result "count") ∧
      (isNullish (getProp result "total") = true →
        isNullish (getProp result "count") = true →
        selectedTotal result = getProp seq "length") ∧
      Resource.paginate (Resource.collection t) result options =
        .obj [("data", .arr ((getElems (if isArray seq then seq else .arr [])).map
                 (fun x => t x (restOptions options)))),
              ("meta", .obj [("current_page", optionDefault options "page" (.numV 1)),
                             ("per_page", optionDefault options "perPage" (.numV 15)),
                             ("total", selectedTotal result),
                             ("last_page", jsLastPage (selectedTotal result)
                                (optionDefault options "perPage" (.numV 15)))])] := by
  refine ⟨selectedResults result, ?_, ?_, ?_, ?_, ?_, ?_, ?_, ?_⟩
  · intro h1; simp [selectedResults, jsOr, h1]
  · intro h1 h2; simp [selectedResults, jsOr, h1, h2]
  · intro h1 h2 h3; simp [selectedResults, jsOr, h1, h2, h3]
  · intro h1 h2 h3; simp [selectedResults, jsOr, h1, h2, h3]
  · intro h1; simp [selectedTotal, jsNullish, h1]
  · intro h1 h2; simp [selectedTotal, jsNullish, h1, h2]
  · intro h1 h2; simp [selectedTotal, jsNullish, h1, h2]
  · have hLHS : Resource.paginate (Resource.collection t) result options =
        Val.obj [("data", Resource.collection t
                   (if isArray (selectedResults result) then selectedResults result
                    else Val.arr []) (restOptions options)),
                 ("meta", Val.obj [("current_page", optionDefault options "page" (.numV 1)),
                                   ("per_page", optionDefault options "perPage" (.numV 15)),
                                   ("total", selectedTotal result),
                                   ("last_page", jsLastPage (selectedTotal result)
                                     (optionDefault options "perPage" (.numV 15)))])] := rfl
    rw [hLHS, collection_ite_arr]

/-- Witness for C2 (amended): instantiated at a container whose falsy
`results` field is skipped in favour of `data`. -/
theorem paginate_selection_amended_witness :
    Resource.paginate (Resource.collection (fun v _ => v))
        (.obj [("results", .null), ("data", .arr [.numV 3])]) (.obj []) =
      .obj [("data", .arr [.numV 3]),
            ("meta", .obj [("current_page", .numV 1), ("per_page", .numV 15),
                           ("total", .numV 1), ("last_page", .numV 1)])] := by
  obtain ⟨seq, h1, h2, h3, h4, h5, h6, h7, h8⟩ :=
    paginate_selection_amended (fun v _ => v)
      (.obj [("results", .null), ("data", .arr [.numV 3])]) (.obj [])
  have hs : seq = .arr [.numV 3] := h2 rfl rfl
  rw [h8, hs]
  rfl

/-- Reading `meta.last_page` back out of the `paginate` envelope. -/
theorem paginate_meta_last_page (collection : Val → Val → Val) (result options : Val) :
    getProp (getProp (Resource.paginate collection result options) "meta") "last_page" =
      jsLastPage (selectedTotal result) (optionDefault options "perPage" (.numV 15)) := rfl

/-- `intCeilDiv` is the mathematical ceiling of the fraction, for a positive
divisor. -/
theorem intCeilDiv_eq_ceil (t p : Int) (hp : 0 < p) :
    intCeilDiv t p = ⌈(t : ℚ) / (p : ℚ)⌉ := by
  have hfd : (-t).fdiv p = (-t) / p := Int.fdiv_eq_ediv _ hp.le
  have hfl : ⌊((-t : Int) : ℚ) / ((p.toNat : ℕ) : ℚ)⌋ = (-t) / ((p.toNat : ℕ) : Int) :=
    Rat.floor_intCast_div_natCast (-t) p.toNat
  have hpt : ((p.toNat : ℕ) : Int) = p := Int.toNat_of_nonneg hp.le
  have hptq : ((p.toNat : ℕ) : ℚ) = (p : ℚ) := by
    rw [show ((p.toNat : ℕ) : ℚ) = (((p.toNat : ℕ) : Int) : ℚ) by push_cast; ring, hpt]
  rw [hpt, hptq] at hfl
  rw [intCeilDiv, hfd, ← hfl]
  push_cast
  rw [neg_div, Int.floor_neg, neg_neg]

/-- Claim C3 counterexample: with `total = 10` and `perPage = -5` the code's
`Math.ceil(total / perPage) || 1` yields `-2`, not the claimed
"ceiling clamped to a minimum of 1" (which would be 1): the `|| 1` fallback
only fires when the ceiling is `0` or `NaN`. -/
theorem lastPage_negative_counterexample :
    getProp (getProp (Resource.paginate (Resource.collection (fun v _ => v))
        (.obj [("results", .arr []), ("total", .numV 10)])
        (.obj [("perPage", .numV (-5))])) "meta") "last_page" = .numV (-2) ∧
    (Val.numV (-2) ≠ .numV (max 1 ⌈((10 : Int) : ℚ) / (((-5) : Int) : ℚ)⌉)) := by
  constructor
  · rfl
  · have hc : max 1 ⌈((10 : Int) : ℚ) / (((-5) : Int) : ℚ)⌉ = 1 := by
      rw [show ((10 : Int) : ℚ) / (((-5) : Int) : ℚ) = (((-2) : Int) : ℚ) by norm_num,
        Int.ceil_intCast]
      rfl
    rw [hc]
    simp

/-- Claim C3 (amended): with the resolved `total` equal to the integer `t`
and the resolved `perPage` (default 15) equal to the nonzero integer `p`,
`meta.last_page` is `ceil(t / p)` unless that ceiling is `0`, in which case
it is `1`; in particular a zero `total` always reports `last_page = 1`, and
on the intended domain (nonnegative `total`, positive `perPage`) this equals
the claimed `max 1 (ceil(total / perPage))` exactly. -/
theorem lastPage_amended (collection : Val → Val → Val) (result options : Val)
    (t p : Int) (htotal : selectedTotal result = .numV t)
    (hper : optionDefault options "perPage" (.numV 15) = .numV p) (hp : p ≠ 0) :
    (getProp (getProp (Resource.paginate collection result options) "meta") "last_page" =
      (if intCeilDiv t p = 0 then Val.numV 1 else .numV (intCeilDiv t p))) ∧
    (t = 0 →
      getProp (getProp (Resource.paginate collection result options) "meta") "last_page" =
        .numV 1) ∧
    (0 ≤ t → 0 < p →
      getProp (getProp (Resource.paginate collection result options) "meta") "last_page" =
        .numV (max 1 ⌈(t : ℚ) / (p : ℚ)⌉)) := by
  have hmain : getProp (getProp (Resource.paginate collection result options) "meta")
      "last_page" = (if intCeilDiv t p = 0 then Val.numV 1 else .numV (intCeilDiv t p)) := by
    rw [paginate_meta_last_page, htotal, hper]
    simp [jsLastPage, toNumZ, hp]
  refine ⟨hmain, ?_, ?_⟩
  · intro ht
    rw [hmain, ht]
    simp [intCeilDiv]
  · intro ht hppos
    rw [hmain, intCeilDiv_eq_ceil t p hppos]
    have hnn : 0 ≤ ⌈(t : ℚ) / (p : ℚ)⌉ :=
      Int.ceil_nonneg (div_nonneg (by exact_mod_cast ht) (by positivity))
    rcases eq_or_ne (⌈(t : ℚ) / (p : ℚ)⌉) 0 with h0 | h0
    · rw [if_pos h0, h0]
      norm_num
    · rw [if_neg h0]
      congr 1
      omega

/-- Witness for C3 (amended): the claim's own concrete example —
`paginate({results: [], total: 0}, {})` reports `last_page = 1`. -/
theorem lastPage_amended_witness :
    getProp (getProp (Resource.paginate (Resource.collection (fun v _ => v))
        (.obj [("results", .arr []), ("total", .numV 0)]) (.obj [])) "meta")
      "last_page" = .numV 1 :=
  (lastPage_amended (Resource.collection (fun v _ => v))
      (.obj [("results", .arr []), ("total", .numV 0)]) (.obj []) 0 15 rfl rfl
      (by decide)).2.1 rfl

/-! ## Heap-passing embedding for the no-mutation property

The value model above is pure, so it cannot even express mutation.  To state
that the helpers never mutate their inputs, the same operations are embedded
a second time against an explicit heap: objects and arrays live in heap
cells addressed by allocation order, values are scalars or references, every
JS object literal / spread / `Object.fromEntries` call allocates a fresh
cell, and the only write primitive is property assignment on an addressed
cell.  Each operation is traced from the same source lines as its pure
counterpart.  The frame theorem then says: every heap cell that existed
before the call holds the same object afterwards. -/

inductive HVal where
  | undefined
  | null
  | hbool (b : Bool)
  | hnum (n : Int)
  | hstr (s : String)
  | ref (a : Nat)
deriving DecidableEq, Repr

/-- A heap cell: a JS object (`isArr = false`) or array (`isArr = true`,
fields are the index-keyed elements in order). -/
structure HObj where
  isArr : Bool
  fields : List (String × HVal)
deriving DecidableEq, Repr

/-- The heap: cell `a` is `h[a]`; allocation appends at address `h.length`. -/
abbrev Heap := List HObj

def hTruthy : HVal → Bool
  | .undefined => false
  | .null => false
  | .hbool b => b
  | .hnum n => n != 0
  | .hstr s => s != ""
  | .ref _ => true

def hIsUndef : HVal → Bool
  | .undefined => true
  | _ => false

def hIsNullish : HVal → Bool
  | .undefined => true
  | .null => true
  | _ => false

def heapGet (h : Heap) (a : Nat) : HObj := (h[a]?).getD ⟨false, []⟩

/-- Property read through the heap; arrays expose `length`. -/
def hGetProp (h : Heap) (v : HVal) (k : String) : HVal :=
  match v with
  | .ref a =>
      match lookupKey (heapGet h a).fields k with
      | some w => w
      | none => if (heapGet h a).isArr && (k == "length") then
                  .hnum (heapGet h a).fields.length
                else .undefined
  | .hstr s => if k == "length" then .hnum s.length else .undefined
  | _ => .undefined

/-- Property assignment `cell.k = v` on the cell at address `a`. -/
def setFieldH (h : Heap) (a : Nat) (k : String) (v : HVal) : Heap :=
  h.set a ⟨(heapGet h a).isArr, setKey (heapGet h a).fields k v⟩

/-- Own enumerable entries as seen by `Object.assign`, `Object.entries` and
object spread: a referenced cell's fields, a string's index-keyed
characters, nothing for other primitives. -/
def entriesForAssign (h : Heap) (v : HVal) : List (String × HVal) :=
  match v with
  | .ref a => (heapGet h a).fields
  | .hstr s => indexEntries (s.data.map (fun c => .hstr (String.singleton c)))
  | _ => []

/-- Elements of a referenced array (used to iterate `fields` in `pick` and to
build the `Set` in `omit`; iterating a non-array would throw in JS — outside
every claim). -/
def elemsOfH (h : Heap) (v : HVal) : List HVal :=
  match v with
  | .ref a => if (heapGet h a).isArr then ((heapGet h a).fields).map Prod.snd else []
  | _ => []

/-- Property-key coercion of a field name (scalars as in `valToKeyString`; the
comma join of a referenced array through the heap is elided — the key text is
irrelevant to the frame property). -/
def hKeyString : HVal → String
  | .undefined => "undefined"
  | .null => "null"
  | .hbool b => if b then "true" else "false"
  | .hnum n => toString n
  | .hstr s => s
  | .ref _ => "[object Object]"

/-- Every pre-existing heap cell is unchanged (the no-mutation frame
property). -/
def HeapPres (h h2 : Heap) : Prop := ∀ a, a < h.length → h2[a]? = h[a]?

theorem heapPres_rfl (h : Heap) : HeapPres h h := fun _ _ => rfl

theorem heapPres_trans {h1 h2 h3 : Heap} (p12 : HeapPres h1 h2) (p23 : HeapPres h2 h3) :
    HeapPres h1 h3 := by
  intro a ha
  have e := p12 a ha
  have ha2 : a < h2.length := by
    by_contra hlt
    push_neg at hlt
    rw [List.getElem?_eq_none hlt, List.getElem?_eq_getElem ha] at e
    exact Option.noConfusion e
  exact (p23 a ha2).trans e

theorem heapPres_alloc (h : Heap) (o : HObj) : HeapPres h (h ++ [o]) := by
  intro a ha
  rw [List.getElem?_append]
  exact if_pos ha

theorem heapPres_alloc_of {h0 hh : Heap} (o : HObj) (hp : HeapPres h0 hh) :
    HeapPres h0 (hh ++ [o]) :=
  heapPres_trans hp (heapPres_alloc hh o)

/-- Writing a property of a cell allocated at or after the end of the old
heap cannot disturb the old heap. -/
theorem heapPres_set_ge {h0 hh : Heap} (a : Nat) (ha : h0.length ≤ a) (k : String)
    (v : HVal) (hp : HeapPres h0 hh) : HeapPres h0 (setFieldH hh a k v) := by
  intro b hb
  unfold setFieldH
  rw [List.getElem?_set_ne (by omega)]
  exact hp b hb

theorem heapPres_foldl {β : Type} (f : Heap → β → Heap) (l : List β) {h0 hh : Heap}
    (hstep : ∀ hx b, HeapPres h0 hx → HeapPres h0 (f hx b)) (hbase : HeapPres h0 hh) :
    HeapPres h0 (l.foldl f hh) := by
  induction l generalizing hh with
  | nil => exact hbase
  | cons b rest ih => exact ih (hstep hh b hbase)

/-! Heap-passing embeddings of the helpers (same source lines as the pure
versions).  Appending `h ++ [cell]` is the allocation of a fresh object or
array literal at address `h.length`. -/

/-- `Resource.clean` (lines 137-142): for `HVal`, the guard
`!obj || typeof obj !== 'object'` holds exactly for non-references, which are
returned as they are; a referenced cell is rebuilt as a freshly allocated
plain object. -/
def cleanH (h : Heap) (v : HVal) : Heap × HVal :=
  match v with
  | .ref a =>
      (h ++ [⟨false, fromEntries (((heapGet h a).fields).filter (fun kv => !hIsUndef kv.2))⟩],
       .ref h.length)
  | _ => (h, v)

/-- `Resource.merge` (lines 157-160): filter out nullish arguments, allocate
the fresh `Object.assign` target `{}`, copy each argument's entries into it
by property assignment, then `this.clean` the target (a second fresh
allocation). -/
def mergeH (h : Heap) (objects : List HVal) : Heap × HVal :=
  let filtered := objects.filter (fun v => !hIsNullish v)
  let tA := h.length
  let h1 := h ++ [(⟨false, []⟩ : HObj)]
  let h2 := filtered.foldl (fun hh v => (entriesForAssign hh v).foldl
      (fun hh2 kv => setFieldH hh2 tA kv.1 kv.2) hh) h1
  cleanH h2 (.ref tA)

/-- `Resource.pick` (lines 271-279): a falsy `obj` or `fields` returns a
fresh `{}`; otherwise `reduce` allocates the fresh accumulator `{}` and
assigns `acc[field] = obj[field]` for each field whose read is not
`undefined` — every write lands on the fresh accumulator. -/
def pickH (h : Heap) (obj fields : HVal) : Heap × HVal :=
  if !hTruthy obj || !hTruthy fields then (h ++ [(⟨false, []⟩ : HObj)], .ref h.length)
  else
    let accA := h.length
    let h1 := h ++ [(⟨false, []⟩ : HObj)]
    let h2 := (elemsOfH h fields).foldl (fun hh fv =>
      if !hIsUndef (hGetProp hh obj (hKeyString fv)) then
        setFieldH hh accA (hKeyString fv) (hGetProp hh obj (hKeyString fv))
      else hh) h1
    (h2, .ref accA)

/-- `Resource.omit` (lines 290-296): a falsy `obj` or `fields` returns the
fresh spread copy `{...obj}`; otherwise a fresh object is built from the
entries whose key is not in the `Set` of fields (`has` compares with
SameValueZero, here decidable equality on `HVal`). -/
def omitH (h : Heap) (obj fields : HVal) : Heap × HVal :=
  if !hTruthy obj || !hTruthy fields then
    (h ++ [⟨false, fromEntries (entriesForAssign h obj)⟩], .ref h.length)
  else
    let fieldSet := elemsOfH h fields
    (h ++ [⟨false, fromEntries ((entriesForAssign h obj).filter
        (fun kv => !(fieldSet.contains (.hstr kv.1))))⟩],
     .ref h.length)

/-- `Resource.rename` (lines 307-315): a falsy `obj` or `keyMap` returns the
fresh spread copy `{...obj}`; otherwise a fresh object is built with each key
replaced by `keyMap[key] || key`. -/
def renameH (h : Heap) (obj keyMap : HVal) : Heap × HVal :=
  if !hTruthy obj || !hTruthy keyMap then
    (h ++ [⟨false, fromEntries (entriesForAssign h obj)⟩], .ref h.length)
  else
    (h ++ [⟨false, fromEntries ((entriesForAssign h obj).map (fun kv =>
      (if hTruthy (hGetProp h keyMap kv.1) then hKeyString (hGetProp h keyMap kv.1)
       else kv.1, kv.2)))⟩],
     .ref h.length)

/-- A zero-argument JS callable: it may read and extend the heap and return a
value. -/
abbrev CB0 := Heap → Heap × HVal

/-- A one-argument JS callable (a transformer). -/
abbrev CB1 := HVal → Heap → Heap × HVal

/-- The `value` parameter of `when`/`whenOrElse`: the left injection is a
callable (`typeof value === 'function'`), the right a plain value. -/
abbrev HArg := Sum CB0 HVal

/-- `Resource.when` (lines 72-75). -/
def whenH (h : Heap) (condition : HVal) (value : HArg) : Heap × HVal :=
  if !hTruthy condition then (h, .undefined)
  else match value with
       | .inl f => f h
       | .inr v => (h, v)

/-- `Resource.whenOrElse` (lines 87-90): select the branch, then invoke it if
callable. -/
def whenOrElseH (h : Heap) (condition : HVal) (value defaultValue : HArg) : Heap × HVal :=
  match (if hTruthy condition then value else defaultValue) with
  | .inl f => f h
  | .inr v => (h, v)

/-- `Resource.whenLoaded` (lines 104-108). -/
def whenLoadedH (h : Heap) (resource : HVal) (relation : String)
    (transformer : Option CB1) : Heap × HVal :=
  if hIsUndef (hGetProp h resource relation) then (h, .undefined)
  else match transformer with
       | some f => f (hGetProp h resource relation) h
       | none => (h, hGetProp h resource relation)

/-- `Resource.whenNotNull` (lines 119-123). -/
def whenNotNullH (h : Heap) (value : HVal) (transformer : Option CB1) : Heap × HVal :=
  if hIsNullish value then (h, .undefined)
  else match transformer with
       | some f => f value h
       | none => (h, value)

/-- `Resource.wrap` (lines 175-181): allocate the fresh `{ data }` response
and, when `meta` is truthy with at least one key, assign `response.meta` on
the fresh cell. -/
def wrapH (h : Heap) (data meta : HVal) : Heap × HVal :=
  let rA := h.length
  let h1 := h ++ [(⟨false, [("data", data)]⟩ : HObj)]
  if hTruthy meta && decide (0 < (entriesForAssign h meta).length) then
    (setFieldH h1 rA "meta" meta, .ref rA)
  else (h1, .ref rA)

def hOr (a b : HVal) : HVal := if hTruthy a then a else b

def hNullish (a b : HVal) : HVal := if hIsNullish a then b else a

def hIsArrayV (h : Heap) (v : HVal) : Bool :=
  match v with
  | .ref a => (heapGet h a).isArr
  | _ => false

def hOptionDefault (h : Heap) (options : HVal) (k : String) (d : HVal) : HVal :=
  if hIsUndef (hGetProp h options k) then d else hGetProp h options k

/-- The rest fields of `...transformOptions` read through the heap. -/
def restFieldsH (h : Heap) (options : HVal) : List (String × HVal) :=
  (match options with
   | .ref a => (heapGet h a).fields
   | _ => []).filter (fun kv => kv.1 != "page" && kv.1 != "perPage")

/-- `Math.ceil(total / perPage) || 1` on heap values (same integer fragment
as `jsLastPage`). -/
def hLastPage (total perPage : HVal) : HVal :=
  match total, perPage with
  | .hnum t, .hnum p =>
      if p = 0 then (if t = 0 then .hnum 1 else .undefined)
      else (if intCeilDiv t p = 0 then .hnum 1 else .hnum (intCeilDiv t p))
  | _, _ => .hnum 1

/-- `Resource.paginate` (lines 201-221) on the heap: the rest-spread
`...transformOptions` allocates, the `[]` of
`Array.isArray(results) ? results : []` allocates, `this.collection` runs as
the supplied callable, and the `meta` and outer response literals allocate. -/
def paginateH (collection : HVal → HVal → CB0) (h : Heap) (result options : HVal) :
    Heap × HVal :=
  let page := hOptionDefault h options "page" (.hnum 1)
  let perPage := hOptionDefault h options "perPage" (.hnum 15)
  let optA := h.length
  let h1 := h ++ [(⟨false, restFieldsH h options⟩ : HObj)]
  let results := hOr (hGetProp h1 result "results")
      (hOr (hGetProp h1 result "data") (hOr (hGetProp h1 result "rows") result))
  let total := hNullish (hGetProp h1 result "total")
      (hNullish (hGetProp h1 result "count") (hGetProp h1 results "length"))
  let h2 := if hIsArrayV h1 results then h1 else h1 ++ [(⟨true, []⟩ : HObj)]
  let argV := if hIsArrayV h1 results then results else .ref h1.length
  let dres := collection argV (.ref optA) h2
  let h4 := dres.1 ++ [(⟨false, [("current_page", page), ("per_page", perPage),
      ("total", total), ("last_page", hLastPage total perPage)]⟩ : HObj)]
  (h4 ++ [(⟨false, [("data", dres.2), ("meta", .ref dres.1.length)]⟩ : HObj)],
   .ref h4.length)

/-! Frame lemmas: each helper only reads the heap, allocates fresh cells, or
writes properties of cells it has just allocated. -/

theorem cleanH_pres (h : Heap) (v : HVal) : HeapPres h (cleanH h v).1 := by
  cases v <;> first | exact heapPres_rfl h | exact heapPres_alloc _ _

theorem mergeH_pres (h : Heap) (objects : List HVal) : HeapPres h (mergeH h objects).1 := by
  have h2p : HeapPres h ((objects.filter (fun v => !hIsNullish v)).foldl
      (fun hh v => (entriesForAssign hh v).foldl
        (fun hh2 kv => setFieldH hh2 h.length kv.1 kv.2) hh) (h ++ [(⟨false, []⟩ : HObj)])) :=
    heapPres_foldl _ _ (fun hx v hp => heapPres_foldl _ _ (fun hy kv hq =>
      heapPres_set_ge h.length (le_refl _) kv.1 kv.2 hq) hp) (heapPres_alloc h _)
  exact heapPres_trans h2p (cleanH_pres _ _)

theorem pickH_pres (h : Heap) (obj fields : HVal) : HeapPres h (pickH h obj fields).1 := by
  unfold pickH
  split
  · exact heapPres_alloc _ _
  · dsimp only
    refine heapPres_foldl _ _ (fun hx fv hp => ?_) (heapPres_alloc _ _)
    dsimp only
    split
    · exact heapPres_set_ge h.length (le_refl _) _ _ hp
    · exact hp

theorem omitH_pres (h : Heap) (obj fields : HVal) : HeapPres h (omitH h obj fields).1 := by
  unfold omitH
  split
  · exact heapPres_alloc _ _
  · exact heapPres_alloc _ _

theorem renameH_pres (h : Heap) (obj keyMap : HVal) : HeapPres h (renameH h obj keyMap).1 := by
  unfold renameH
  split
  · exact heapPres_alloc _ _
  · exact heapPres_alloc _ _

/-- A callable `when`/`whenOrElse` argument that itself preserves
pre-existing heap cells (a plain value trivially does). -/
def HArgPres : HArg → Prop
  | .inl f => ∀ hx, HeapPres hx (f hx).1
  | .inr _ => True

/-- An optional transformer that itself preserves pre-existing heap cells. -/
def OptCB1Pres : Option CB1 → Prop
  | some f => ∀ v hx, HeapPres hx (f v hx).1
  | none => True

theorem whenH_pres (h : Heap) (condition : HVal) (value : HArg)
    (hv : HArgPres value) : HeapPres h (whenH h condition value).1 := by
  unfold whenH
  split
  · exact heapPres_rfl h
  · cases value with
    | inl f => exact hv h
    | inr v => exact heapPres_rfl h

theorem whenOrElseH_pres (h : Heap) (condition : HVal) (value defaultValue : HArg)
    (hv : HArgPres value) (hd : HArgPres defaultValue) :
    HeapPres h (whenOrElseH h condition value defaultValue).1 := by
  unfold whenOrElseH
  cases hc : hTruthy condition
  · rw [if_neg (by simp)]
    cases defaultValue with
    | inl f => exact hd h
    | inr v => exact heapPres_rfl h
  · rw [if_pos rfl]
    cases value with
    | inl f => exact hv h
    | inr v => exact heapPres_rfl h

theorem whenLoadedH_pres (h : Heap) (resource : HVal) (relation : String)
    (transformer : Option CB1) (ht : OptCB1Pres transformer) :
    HeapPres h (whenLoadedH h resource relation transformer).1 := by
  unfold whenLoadedH
  split
  · exact heapPres_rfl h
  · cases transformer with
    | some f => exact ht _ h
    | none => exact heapPres_rfl h

theorem whenNotNullH_pres (h : Heap) (value : HVal) (transformer : Option CB1)
    (ht : OptCB1Pres transformer) : HeapPres h (whenNotNullH h value transformer).1 := by
  unfold whenNotNullH
  split
  · exact heapPres_rfl h
  · cases transformer with
    | some f => exact ht _ h
    | none => exact heapPres_rfl h

theorem wrapH_pres (h : Heap) (data meta : HVal) : HeapPres h (wrapH h data meta).1 := by
  unfold wrapH
  dsimp only
  split
  · exact heapPres_set_ge h.length (le_refl _) _ _ (heapPres_alloc _ _)
  · exact heapPres_alloc _ _

theorem paginateH_pres (collection : HVal → HVal → CB0)
    (hcoll : ∀ v o hx, HeapPres hx (collection v o hx).1)
    (h : Heap) (result options : HVal) :
    HeapPres h (paginateH collection h result options).1 := by
  unfold paginateH
  dsimp only
  refine heapPres_alloc_of _ (heapPres_alloc_of _ (heapPres_trans ?_ (hcoll _ _ _)))
  split
  · exact heapPres_alloc _ _
  · exact heapPres_alloc_of _ (heapPres_alloc _ _)

/-- Claim C9: none of the helper operations mutates its inputs.  In the
heap-passing embedding every input (entity, record, sequence, options map)
lives in pre-existing heap cells, and each of `clean`, `merge`, `pick`,
`omit`, `rename`, `when`, `whenOrElse`, `whenLoaded`, `whenNotNull`, `wrap`
and `paginate` leaves every pre-existing cell exactly as it was — results are
built in freshly allocated cells (for the helpers that accept caller
callbacks, under the hypothesis that the callback itself preserves
pre-existing cells). -/
theorem helpers_no_mutation :
    (∀ h v, HeapPres h (cleanH h v).1) ∧
    (∀ h objects, HeapPres h (mergeH h objects).1) ∧
    (∀ h obj fields, HeapPres h (pickH h obj fields).1) ∧
    (∀ h obj fields, HeapPres h (omitH h obj fields).1) ∧
    (∀ h obj keyMap, HeapPres h (renameH h obj keyMap).1) ∧
    (∀ h condition value, HArgPres value → HeapPres h (whenH h condition value).1) ∧
    (∀ h condition value defaultValue, HArgPres value → HArgPres defaultValue →
      HeapPres h (whenOrElseH h condition value defaultValue).1) ∧
    (∀ h resource relation transformer, OptCB1Pres transformer →
      HeapPres h (whenLoadedH h resource relation transformer).1) ∧
    (∀ h value transformer, OptCB1Pres transformer →
      HeapPres h (whenNotNullH h value transformer).1) ∧
    (∀ h data meta, HeapPres h (wrapH h data meta).1) ∧
    (∀ collection, (∀ v o hx, HeapPres hx (collection v o hx).1) →
      ∀ h result options, HeapPres h (paginateH collection h result options).1) :=
  ⟨cleanH_pres, mergeH_pres, pickH_pres, omitH_pres, renameH_pres,
   whenH_pres, whenOrElseH_pres, whenLoadedH_pres, whenNotNullH_pres, wrapH_pres,
   fun collection hc h result options => paginateH_pres collection hc h result options⟩

/-- Witness for C9: concrete single-cell heaps, with concrete
heap-preserving callbacks discharging the callback hypotheses (including an
allocating `collection` callback for `paginate`). -/
theorem helpers_no_mutation_witness :
    HeapPres [⟨false, [("a", .hnum 1)]⟩] (cleanH [⟨false, [("a", .hnum 1)]⟩] (.ref 0)).1 ∧
    HeapPres [⟨false, []⟩]
      (whenH [⟨false, []⟩] (.hbool true) (.inl (fun hx => (hx, .null)))).1 ∧
    HeapPres [⟨false, []⟩]
      (whenOrElseH [⟨false, []⟩] (.hbool false) (.inr .null)
        (.inl (fun hx => (hx, .hnum 2)))).1 ∧
    HeapPres [⟨false, [("p", .null)]⟩]
      (whenLoadedH [⟨false, [("p", .null)]⟩] (.ref 0) "p" (some (fun v hx => (hx, v)))).1 ∧
    HeapPres [⟨false, []⟩]
      (whenNotNullH [⟨false, []⟩] (.hnum 3) (some (fun v hx => (hx, v)))).1 ∧
    HeapPres [⟨true, [("0", .hnum 1)]⟩]
      (paginateH (fun _ _ hx => (hx ++ [(⟨true, []⟩ : HObj)], .ref hx.length))
        [⟨true, [("0", .hnum 1)]⟩] (.ref 0) (.ref 0)).1 :=
  ⟨helpers_no_mutation.1 _ _,
   helpers_no_mutation.2.2.2.2.2.1 _ _ _ (fun hx => heapPres_rfl hx),
   helpers_no_mutation.2.2.2.2.2.2.1 _ _ _ _ trivial (fun hx => heapPres_rfl hx),
   helpers_no_mutation.2.2.2.2.2.2.2.1 _ _ _ _ (fun v hx => heapPres_rfl hx),
   helpers_no_mutation.2.2.2.2.2.2.2.2.1 _ _ _ (fun v hx => heapPres_rfl hx),
   helpers_no_mutation.2.2.2.2.2.2.2.2.2.2 _
     (fun v o hx => heapPres_alloc hx _) _ _ _⟩
